import Mathlib

/-!
Verification development for `setup_env.py`.

The script has two side-effecting procedures invoked from an entry point:

* `initialize_directories(root_path)` — for each relative folder in the fixed
  list `PROJECT_STRUCTURE`, runs `(root / folder).mkdir(parents=True,
  exist_ok=True)` and `(root / folder / ".gitkeep").touch()`, and on any
  exception logs the failing directory path and calls `sys.exit(1)`.
* `check_hardware_acceleration()` — picks `"cuda"` if
  `torch.cuda.is_available()`, else `"mps"` if
  `torch.backends.mps.is_available()`, else `"cpu"`, writes that token to
  `config/device_config.txt` (mode `"w"`, no exception handler), and returns
  it.

The filesystem is embedded as an explicit state: a set of existing
directories, an association list of files with their contents, and a set of
paths the operating system refuses to create (modelling permission errors).
Paths are lists of components; Python joins components with `/`, so the
string constants of `PROJECT_STRUCTURE` are transcribed component-wise.
`touch` on an existing file or directory only refreshes its timestamp (we do
not model timestamps), and creating a fresh file via `touch` yields empty
content.  Raised exceptions / `sys.exit` are modelled by an `Option`-valued
error component carrying the offending path; the process exit code is made
explicit in `main`.
-/

/-- Filesystem paths, as lists of components (Python joins them with `/`). -/
abbrev FPath := List String

/-- State of the local filesystem: existing directories, existing files with
their contents (first match wins, later writes shadow earlier entries), and
paths whose creation the operating system denies (permission errors). -/
structure FS where
  dirs : List FPath
  files : List (FPath × String)
  denied : List FPath
deriving DecidableEq, Repr

/-- Whether `p` exists as a directory.  The empty path is the root of the
tree (the working directory), which always exists. -/
def FS.isDir (fs : FS) (p : FPath) : Bool :=
  decide (p = [] ∨ p ∈ fs.dirs)

/-- Whether `p` exists as a regular file. -/
def FS.isFile (fs : FS) (p : FPath) : Bool :=
  decide (∃ e ∈ fs.files, e.1 = p)

/-- Content of the file at `p`, when one exists. -/
def FS.fileContent (fs : FS) (p : FPath) : Option String :=
  (fs.files.find? (fun e => decide (e.1 = p))).map (fun e => e.2)

/-- One step of `Path.mkdir(parents=True, exist_ok=True)`: create the
directories of `ps` in order (ancestors first).  A component that exists as a
file raises; an existing directory is accepted (`exist_ok`); a denied
component raises; otherwise the directory is created.  Returns the resulting
state and, on failure, the offending component. -/
def mkdirSeq (fs : FS) : List FPath → FS × Option FPath
  | [] => (fs, none)
  | p :: rest =>
    if fs.isFile p then (fs, some p)
    else if fs.isDir p then mkdirSeq fs rest
    else if p ∈ fs.denied then (fs, some p)
    else mkdirSeq { fs with dirs := p :: fs.dirs } rest

/-- All ancestors of `base ++ p` that extend `base`, shortest first, ending
with `base ++ p` itself. -/
def ancestorsFrom (base : FPath) : FPath → List FPath
  | [] => []
  | c :: rest => (base ++ [c]) :: ancestorsFrom (base ++ [c]) rest

/-- `Path(p).mkdir(parents=True, exist_ok=True)`: create every ancestor of
`p`, parents first. -/
def FS.mkdirAll (fs : FS) (p : FPath) : FS × Option FPath :=
  mkdirSeq fs (ancestorsFrom [] p)

/-- `Path(p).touch()`: an existing file or directory only has its timestamp
refreshed (timestamps are not modelled, so the state is unchanged); otherwise
an empty file is created, which raises when the parent directory is missing
or the path is denied. -/
def FS.touch (fs : FS) (p : FPath) : FS × Option FPath :=
  if fs.isFile p || fs.isDir p then (fs, none)
  else if fs.isDir p.dropLast = false then (fs, some p)
  else if p ∈ fs.denied then (fs, some p)
  else ({ fs with files := (p, "") :: fs.files }, none)

/-- `open(p, "w")` followed by `f.write(s)`: raises when `p` is a directory,
when the parent directory is missing, or when a fresh `p` is denied;
otherwise the file now holds exactly `s` (an existing file is truncated and
rewritten, modelled by shadowing). -/
def FS.writeFile (fs : FS) (p : FPath) (s : String) : FS × Option FPath :=
  if fs.isDir p then (fs, some p)
  else if fs.isDir p.dropLast = false then (fs, some p)
  else if fs.isFile p then ({ fs with files := (p, s) :: fs.files }, none)
  else if p ∈ fs.denied then (fs, some p)
  else ({ fs with files := (p, s) :: fs.files }, none)

/-- The fixed directory list of `setup_env.py`, with each `/`-separated
string transcribed into its path components. -/
def PROJECT_STRUCTURE : List FPath := [
  ["data", "raw", "images"],
  ["data", "raw", "text"],
  ["data", "processed", "embeddings"],
  ["data", "processed", "graph"],
  ["src", "encoders"],
  ["src", "graph"],
  ["src", "fusion"],
  ["src", "utils"],
  ["models", "checkpoints"],
  ["models", "exported"],
  ["logs"],
  ["notebooks"],
  ["config"]
]

/-- The loop body of `initialize_directories` over an arbitrary folder list:
for each folder, `mkdir` then `touch` of the `.gitkeep` marker; the first
exception is logged with the folder path and the process exits with status 1
(modelled by the `Option` component).  Returns the final filesystem, the
folders attempted in order, and the failing folder if any. -/
def initLoop (root : FPath) (fs : FS) : List FPath → FS × List FPath × Option FPath
  | [] => (fs, [], none)
  | folder :: rest =>
    let r1 := fs.mkdirAll (root ++ folder)
    match r1.2 with
    | some _ => (r1.1, [folder], some folder)
    | none =>
      let r2 := r1.1.touch (root ++ folder ++ [".gitkeep"])
      match r2.2 with
      | some _ => (r2.1, [folder], some folder)
      | none =>
        let r := initLoop root r2.1 rest
        (r.1, folder :: r.2.1, r.2.2)

/-- `initialize_directories(root_path)`: the loop above over
`PROJECT_STRUCTURE`. -/
def initialize_directories (root : FPath) (fs : FS) : FS × List FPath × Option FPath :=
  initLoop root fs PROJECT_STRUCTURE

/-- Runtime environment visible to `check_hardware_acceleration`: the two
capability flags queried by the code and the device metadata that is only
logged. -/
structure Env where
  cuda_is_available : Bool
  mps_is_available : Bool
  gpu_name : String
  gpu_total_memory : Nat
deriving DecidableEq, Repr

/-- The fixed configuration file path `config/device_config.txt`. -/
def device_config_path : FPath := ["config", "device_config.txt"]

/-- The `if torch.cuda.is_available() ... elif torch.backends.mps.is_available()
... else ...` chain selecting the device token. -/
def selected_device (env : Env) : String :=
  if env.cuda_is_available then "cuda"
  else if env.mps_is_available then "mps"
  else "cpu"

/-- `check_hardware_acceleration()`: select the device token, write it to
`config/device_config.txt` (the relative path resolves against the working
directory `cwd`), and return it.  The write is not guarded by any handler, so
its failure propagates (third component `some p`). -/
def check_hardware_acceleration (env : Env) (cwd : FPath) (fs : FS) :
    String × FS × Option FPath :=
  let device := selected_device env
  let w := fs.writeFile (cwd ++ device_config_path) device
  (device, w.1, w.2)

/-- `main()` (named `script_main` here because Lean reserves `main`): root is the working directory; initialize the folders (exit
code 1 on failure), then probe the hardware (an uncaught exception from the
config write also terminates with a nonzero code), else finish with exit
code 0.  Returns the final filesystem and the process exit code. -/
def script_main (env : Env) (cwd : FPath) (fs : FS) : FS × Nat :=
  let r := initialize_directories cwd fs
  match r.2.2 with
  | some _ => (r.1, 1)
  | none =>
    let c := check_hardware_acceleration env cwd r.1
    match c.2.2 with
    | some _ => (c.2.1, 1)
    | none => (c.2.1, 0)

/-- The empty filesystem: a fresh working directory. -/
def emptyFS : FS := { dirs := [], files := [], denied := [] }

/-- Environment with no accelerator available. -/
def envNone : Env :=
  { cuda_is_available := false, mps_is_available := false,
    gpu_name := "", gpu_total_memory := 0 }

/-! ### Frame and monotonicity lemmas for the filesystem operations -/

theorem mkdirSeq_files : ∀ (ps : List FPath) (fs : FS), (mkdirSeq fs ps).1.files = fs.files := by
  intro ps
  induction ps with
  | nil => intro fs; rfl
  | cons p rest ih =>
    intro fs
    simp only [mkdirSeq]
    by_cases h1 : fs.isFile p = true
    · simp [h1]
    · simp only [if_neg h1]
      by_cases h2 : fs.isDir p = true
      · simp [h2, ih]
      · simp only [if_neg h2]
        by_cases h3 : p ∈ fs.denied
        · simp [h3]
        · simp [h3, ih]

theorem mkdirSeq_isFile (ps : List FPath) (fs : FS) (q : FPath) :
    (mkdirSeq fs ps).1.isFile q = fs.isFile q := by
  simp [FS.isFile, mkdirSeq_files]

theorem mkdirSeq_isDir_mono :
    ∀ (ps : List FPath) (fs : FS) (q : FPath),
      fs.isDir q = true → (mkdirSeq fs ps).1.isDir q = true := by
  intro ps
  induction ps with
  | nil => intro fs q h; exact h
  | cons p rest ih =>
    intro fs q h
    simp only [mkdirSeq]
    by_cases h1 : fs.isFile p = true
    · simp [h1, h]
    · simp only [if_neg h1]
      by_cases h2 : fs.isDir p = true
      · simp only [if_pos h2]; exact ih fs q h
      · simp only [if_neg h2]
        by_cases h3 : p ∈ fs.denied
        · simp [h3, h]
        · simp only [if_neg h3]
          apply ih
          simp only [FS.isDir] at h ⊢
          simp only [decide_eq_true_eq] at h ⊢
          rcases h with h | h
          · exact Or.inl h
          · exact Or.inr (List.mem_cons_of_mem _ h)

theorem mkdirSeq_new_dirs :
    ∀ (ps : List FPath) (fs : FS) (d : FPath),
      d ∈ (mkdirSeq fs ps).1.dirs → d ∈ fs.dirs ∨ d ∈ ps := by
  intro ps
  induction ps with
  | nil => intro fs d h; exact Or.inl h
  | cons p rest ih =>
    intro fs d h
    simp only [mkdirSeq] at h
    by_cases h1 : fs.isFile p = true
    · simp [h1] at h; exact Or.inl h
    · simp only [if_neg h1] at h
      by_cases h2 : fs.isDir p = true
      · simp only [if_pos h2] at h
        rcases ih fs d h with h | h
        · exact Or.inl h
        · exact Or.inr (List.mem_cons_of_mem _ h)
      · simp only [if_neg h2] at h
        by_cases h3 : p ∈ fs.denied
        · simp [h3] at h; exact Or.inl h
        · simp only [if_neg h3] at h
          rcases ih _ d h with h | h
          · rcases List.mem_cons.mp h with h | h
            · exact Or.inr (h ▸ List.mem_cons_self _ _)
            · exact Or.inl h
          · exact Or.inr (List.mem_cons_of_mem _ h)

theorem mkdirSeq_ok_isDir :
    ∀ (ps : List FPath) (fs : FS),
      (mkdirSeq fs ps).2 = none → ∀ q ∈ ps, (mkdirSeq fs ps).1.isDir q = true := by
  intro ps
  induction ps with
  | nil => intro fs _ q hq; cases hq
  | cons p rest ih =>
    intro fs hok q hq
    simp only [mkdirSeq] at hok ⊢
    by_cases h1 : fs.isFile p = true
    · simp [h1] at hok
    · simp only [if_neg h1] at hok ⊢
      by_cases h2 : fs.isDir p = true
      · simp only [if_pos h2] at hok ⊢
        rcases List.mem_cons.mp hq with hq | hq
        · exact hq ▸ mkdirSeq_isDir_mono rest fs p h2
        · exact ih fs hok q hq
      · simp only [if_neg h2] at hok ⊢
        by_cases h3 : p ∈ fs.denied
        · simp [h3] at hok
        · simp only [if_neg h3] at hok ⊢
          rcases List.mem_cons.mp hq with hq | hq
          · subst hq
            apply mkdirSeq_isDir_mono
            simp [FS.isDir]
          · exact ih _ hok q hq

theorem mkdirSeq_ok_notFile :
    ∀ (ps : List FPath) (fs : FS),
      (mkdirSeq fs ps).2 = none → ∀ q ∈ ps, fs.isFile q = false := by
  intro ps
  induction ps with
  | nil => intro fs _ q hq; cases hq
  | cons p rest ih =>
    intro fs hok q hq
    simp only [mkdirSeq] at hok
    by_cases h1 : fs.isFile p = true
    · simp [h1] at hok
    · simp only [if_neg h1] at hok
      by_cases h2 : fs.isDir p = true
      · simp only [if_pos h2] at hok
        rcases List.mem_cons.mp hq with hq | hq
        · subst hq; exact Bool.eq_false_iff.mpr h1
        · exact ih fs hok q hq
      · simp only [if_neg h2] at hok
        by_cases h3 : p ∈ fs.denied
        · simp [h3] at hok
        · simp only [if_neg h3] at hok
          rcases List.mem_cons.mp hq with hq | hq
          · subst hq; exact Bool.eq_false_iff.mpr h1
          · have := ih _ hok q hq
            simpa [FS.isFile] using this

theorem mkdirSeq_id :
    ∀ (ps : List FPath) (fs : FS),
      (∀ q ∈ ps, fs.isDir q = true ∧ fs.isFile q = false) → mkdirSeq fs ps = (fs, none) := by
  intro ps
  induction ps with
  | nil => intro fs _; rfl
  | cons p rest ih =>
    intro fs h
    have hp := h p (List.mem_cons_self _ _)
    simp only [mkdirSeq, hp.2, Bool.false_eq_true, if_false, if_pos hp.1]
    exact ih fs (fun q hq => h q (List.mem_cons_of_mem _ hq))

theorem touch_dirs (fs : FS) (p : FPath) : (fs.touch p).1.dirs = fs.dirs := by
  simp only [FS.touch]
  by_cases h1 : (fs.isFile p || fs.isDir p) = true
  · simp [h1]
  · simp only [if_neg h1]
    by_cases h2 : fs.isDir p.dropLast = false
    · simp [h2]
    · simp only [if_neg h2]
      by_cases h3 : p ∈ fs.denied
      · simp [h3]
      · simp [h3]

theorem touch_denied (fs : FS) (p : FPath) : (fs.touch p).1.denied = fs.denied := by
  simp only [FS.touch]
  by_cases h1 : (fs.isFile p || fs.isDir p) = true
  · simp [h1]
  · simp only [if_neg h1]
    by_cases h2 : fs.isDir p.dropLast = false
    · simp [h2]
    · simp only [if_neg h2]
      by_cases h3 : p ∈ fs.denied
      · simp [h3]
      · simp [h3]

theorem touch_isDir (fs : FS) (p q : FPath) : (fs.touch p).1.isDir q = fs.isDir q := by
  simp [FS.isDir, touch_dirs]

theorem touch_isFile_mono (fs : FS) (p q : FPath) (h : fs.isFile q = true) :
    (fs.touch p).1.isFile q = true := by
  simp only [FS.touch]
  by_cases h1 : (fs.isFile p || fs.isDir p) = true
  · simp [h1, h]
  · simp only [if_neg h1]
    by_cases h2 : fs.isDir p.dropLast = false
    · simp [h2, h]
    · simp only [if_neg h2]
      by_cases h3 : p ∈ fs.denied
      · simp [h3, h]
      · simp only [if_neg h3]
        simp only [FS.isFile, decide_eq_true_eq] at h ⊢
        rcases h with ⟨e, he, hep⟩
        exact ⟨e, List.mem_cons_of_mem _ he, hep⟩

theorem touch_new_file (fs : FS) (p q : FPath) (h : (fs.touch p).1.isFile q = true) :
    fs.isFile q = true ∨ q = p := by
  simp only [FS.touch] at h
  by_cases h1 : (fs.isFile p || fs.isDir p) = true
  · simp [h1] at h; exact Or.inl h
  · simp only [if_neg h1] at h
    by_cases h2 : fs.isDir p.dropLast = false
    · simp [h2] at h; exact Or.inl h
    · simp only [if_neg h2] at h
      by_cases h3 : p ∈ fs.denied
      · simp [h3] at h; exact Or.inl h
      · simp only [if_neg h3] at h
        simp only [FS.isFile, decide_eq_true_eq] at h ⊢
        rcases h with ⟨e, he, hep⟩
        rcases List.mem_cons.mp he with he | he
        · subst he; exact Or.inr hep.symm
        · exact Or.inl ⟨e, he, hep⟩

theorem touch_ok (fs : FS) (p : FPath) (h : (fs.touch p).2 = none) :
    (fs.touch p).1.isFile p = true ∨ fs.isDir p = true := by
  simp only [FS.touch] at h ⊢
  by_cases h1 : (fs.isFile p || fs.isDir p) = true
  · rcases Bool.or_eq_true_iff.mp h1 with hf | hd
    · simp [h1, hf]
    · exact Or.inr hd
  · simp only [if_neg h1] at h ⊢
    by_cases h2 : fs.isDir p.dropLast = false
    · simp [h2] at h
    · simp only [if_neg h2] at h ⊢
      by_cases h3 : p ∈ fs.denied
      · simp [h3] at h
      · simp only [if_neg h3]
        apply Or.inl
        simp [FS.isFile]

/-! ### Structure of the ancestor list -/

theorem ancestorsFrom_append :
    ∀ (u : FPath) (base v : FPath),
      ancestorsFrom base (u ++ v) = ancestorsFrom base u ++ ancestorsFrom (base ++ u) v := by
  intro u
  induction u with
  | nil => intro base v; simp [ancestorsFrom]
  | cons c u2 ih =>
    intro base v
    have h : base ++ c :: u2 = (base ++ [c]) ++ u2 := by simp
    show (base ++ [c]) :: ancestorsFrom (base ++ [c]) (u2 ++ v) =
      ((base ++ [c]) :: ancestorsFrom (base ++ [c]) u2) ++ ancestorsFrom (base ++ c :: u2) v
    rw [h, ih (base ++ [c]) v, List.cons_append]

theorem ancestorsFrom_length_le :
    ∀ (p : FPath) (base q : FPath),
      q ∈ ancestorsFrom base p → q.length ≤ base.length + p.length := by
  intro p
  induction p with
  | nil => intro base q h; cases h
  | cons c rest ih =>
    intro base q h
    rcases List.mem_cons.mp h with h | h
    · subst h
      simp only [List.length_append, List.length_cons, List.length_nil]
      omega
    · have := ih (base ++ [c]) q h
      simp only [List.length_append, List.length_cons, List.length_nil] at this ⊢
      omega

theorem ancestorsFrom_char :
    ∀ (p : FPath) (base q : FPath),
      q ∈ ancestorsFrom base p → ∃ r c, q = base ++ r ++ [c] ∧ c ∈ p := by
  intro p
  induction p with
  | nil => intro base q h; cases h
  | cons c rest ih =>
    intro base q h
    rcases List.mem_cons.mp h with h | h
    · exact ⟨[], c, by simpa using h, List.mem_cons_self _ _⟩
    · rcases ih (base ++ [c]) q h with ⟨r, d, hq, hd⟩
      refine ⟨c :: r, d, ?_, List.mem_cons_of_mem _ hd⟩
      simp [hq, List.append_assoc]

theorem ancestor_ne_keep (root parts : FPath) (q : FPath)
    (hq : q ∈ ancestorsFrom [] (root ++ parts))
    (hk : ".gitkeep" ∉ parts) (g : FPath) :
    q ≠ root ++ g ++ [".gitkeep"] := by
  intro hEq
  rw [ancestorsFrom_append, List.mem_append] at hq
  rcases hq with hq | hq
  · have hlen := ancestorsFrom_length_le root [] q hq
    rw [hEq] at hlen
    simp only [List.length_append, List.length_cons, List.length_nil] at hlen
    omega
  · simp only [List.nil_append] at hq
    rcases ancestorsFrom_char parts root q hq with ⟨r, c, hchar, hc⟩
    rw [hchar, List.append_assoc, List.append_assoc] at hEq
    have h2 : r ++ [c] = g ++ [".gitkeep"] := by
      have := List.append_cancel_left hEq
      simpa [List.append_assoc] using this
    have hc2 : c = ".gitkeep" := by
      have := congrArg (fun l => l.getLast?) h2
      simpa [List.getLast?_append] using this
    exact hk (hc2 ▸ hc)

/-! ### Invariants of the initialization loop -/

theorem initLoop_isDir_mono :
    ∀ (folders : List FPath) (root : FPath) (fs : FS) (q : FPath),
      fs.isDir q = true → (initLoop root fs folders).1.isDir q = true := by
  intro folders
  induction folders with
  | nil => intro root fs q h; exact h
  | cons f rest ih =>
    intro root fs q h
    simp only [initLoop, FS.mkdirAll]
    cases h1 : (mkdirSeq fs (ancestorsFrom [] (root ++ f))).2 with
    | some p => exact mkdirSeq_isDir_mono _ fs q h
    | none =>
      cases h2 : ((mkdirSeq fs (ancestorsFrom [] (root ++ f))).1.touch
          (root ++ f ++ [".gitkeep"])).2 with
      | some p =>
        rw [touch_isDir]
        exact mkdirSeq_isDir_mono _ fs q h
      | none =>
        apply ih
        rw [touch_isDir]
        exact mkdirSeq_isDir_mono _ fs q h

theorem initLoop_isFile_mono :
    ∀ (folders : List FPath) (root : FPath) (fs : FS) (q : FPath),
      fs.isFile q = true → (initLoop root fs folders).1.isFile q = true := by
  intro folders
  induction folders with
  | nil => intro root fs q h; exact h
  | cons f rest ih =>
    intro root fs q h
    simp only [initLoop, FS.mkdirAll]
    cases h1 : (mkdirSeq fs (ancestorsFrom [] (root ++ f))).2 with
    | some p => rw [mkdirSeq_isFile]; exact h
    | none =>
      cases h2 : ((mkdirSeq fs (ancestorsFrom [] (root ++ f))).1.touch
          (root ++ f ++ [".gitkeep"])).2 with
      | some p =>
        apply touch_isFile_mono
        rw [mkdirSeq_isFile]
        exact h
      | none =>
        apply ih
        apply touch_isFile_mono
        rw [mkdirSeq_isFile]
        exact h

theorem initLoop_new_files :
    ∀ (folders : List FPath) (root : FPath) (fs : FS) (q : FPath),
      (initLoop root fs folders).1.isFile q = true →
      fs.isFile q = true ∨ ∃ g ∈ folders, q = root ++ g ++ [".gitkeep"] := by
  intro folders
  induction folders with
  | nil => intro root fs q h; exact Or.inl h
  | cons f rest ih =>
    intro root fs q h
    simp only [initLoop, FS.mkdirAll] at h
    cases h1 : (mkdirSeq fs (ancestorsFrom [] (root ++ f))).2 with
    | some p =>
      rw [h1] at h
      simp only at h
      rw [mkdirSeq_isFile] at h
      exact Or.inl h
    | none =>
      rw [h1] at h
      simp only at h
      cases h2 : ((mkdirSeq fs (ancestorsFrom [] (root ++ f))).1.touch
          (root ++ f ++ [".gitkeep"])).2 with
      | some p =>
        rw [h2] at h
        simp only at h
        rcases touch_new_file _ _ _ h with h | h
        · rw [mkdirSeq_isFile] at h; exact Or.inl h
        · exact Or.inr ⟨f, List.mem_cons_self _ _, h⟩
      | none =>
        rw [h2] at h
        simp only at h
        rcases ih root _ q h with h | ⟨g, hg, hq⟩
        · rcases touch_new_file _ _ _ h with h | h
          · rw [mkdirSeq_isFile] at h; exact Or.inl h
          · exact Or.inr ⟨f, List.mem_cons_self _ _, h⟩
        · exact Or.inr ⟨g, List.mem_cons_of_mem _ hg, hq⟩

theorem initLoop_new_dirs :
    ∀ (folders : List FPath) (root : FPath) (fs : FS) (d : FPath),
      d ∈ (initLoop root fs folders).1.dirs →
      d ∈ fs.dirs ∨ ∃ g ∈ folders, d ∈ ancestorsFrom [] (root ++ g) := by
  intro folders
  induction folders with
  | nil => intro root fs d h; exact Or.inl h
  | cons f rest ih =>
    intro root fs d h
    simp only [initLoop, FS.mkdirAll] at h
    cases h1 : (mkdirSeq fs (ancestorsFrom [] (root ++ f))).2 with
    | some p =>
      rw [h1] at h
      simp only at h
      rcases mkdirSeq_new_dirs _ fs d h with h | h
      · exact Or.inl h
      · exact Or.inr ⟨f, List.mem_cons_self _ _, h⟩
    | none =>
      rw [h1] at h
      simp only at h
      cases h2 : ((mkdirSeq fs (ancestorsFrom [] (root ++ f))).1.touch
          (root ++ f ++ [".gitkeep"])).2 with
      | some p =>
        rw [h2] at h
        simp only at h
        rw [touch_dirs] at h
        rcases mkdirSeq_new_dirs _ fs d h with h | h
        · exact Or.inl h
        · exact Or.inr ⟨f, List.mem_cons_self _ _, h⟩
      | none =>
        rw [h2] at h
        simp only at h
        rcases ih root _ d h with h | ⟨g, hg, hd⟩
        · rw [touch_dirs] at h
          rcases mkdirSeq_new_dirs _ fs d h with h | h
          · exact Or.inl h
          · exact Or.inr ⟨f, List.mem_cons_self _ _, h⟩
        · exact Or.inr ⟨g, List.mem_cons_of_mem _ hg, hd⟩

theorem isDir_eq_true_iff (fs : FS) (p : FPath) : fs.isDir p = true ↔ p = [] ∨ p ∈ fs.dirs := by
  simp [FS.isDir]

theorem touch_id (fs : FS) (p : FPath)
    (h : fs.isFile p = true ∨ fs.isDir p = true) : fs.touch p = (fs, none) := by
  simp only [FS.touch]
  rcases h with h | h <;> simp [h]

theorem initLoop_trace :
    ∀ (folders : List FPath) (root : FPath) (fs : FS),
      ((initLoop root fs folders).2.2 = none → (initLoop root fs folders).2.1 = folders) ∧
      (∀ p, (initLoop root fs folders).2.2 = some p →
        ∃ pre post, folders = pre ++ p :: post ∧
          (initLoop root fs folders).2.1 = pre ++ [p]) := by
  intro folders
  induction folders with
  | nil =>
    intro root fs
    refine ⟨fun _ => rfl, fun p hp => ?_⟩
    cases hp
  | cons f rest ih =>
    intro root fs
    simp only [initLoop, FS.mkdirAll]
    cases h1 : (mkdirSeq fs (ancestorsFrom [] (root ++ f))).2 with
    | some p0 =>
      constructor
      · intro h; cases h
      · intro p hp
        simp only [Option.some.injEq] at hp
        subst hp
        exact ⟨[], rest, rfl, rfl⟩
    | none =>
      cases h2 : ((mkdirSeq fs (ancestorsFrom [] (root ++ f))).1.touch
          (root ++ f ++ [".gitkeep"])).2 with
      | some p0 =>
        constructor
        · intro h; cases h
        · intro p hp
          simp only [Option.some.injEq] at hp
          subst hp
          exact ⟨[], rest, rfl, rfl⟩
      | none =>
        constructor
        · intro h
          simp only at h ⊢
          rw [(ih root _).1 h]
        · intro p hp
          simp only at hp ⊢
          rcases (ih root _).2 p hp with ⟨pre, post, hrest, hatt⟩
          exact ⟨f :: pre, post, by rw [List.cons_append, hrest], by rw [hatt]; rfl⟩

theorem initLoop_ok_post :
    ∀ (folders : List FPath) (root : FPath) (fs : FS),
      (∀ g ∈ folders, ".gitkeep" ∉ g) →
      (initLoop root fs folders).2.2 = none →
      ∀ f ∈ folders,
        (∀ q ∈ ancestorsFrom [] (root ++ f),
            (initLoop root fs folders).1.isDir q = true ∧
            (initLoop root fs folders).1.isFile q = false) ∧
        ((initLoop root fs folders).1.isFile (root ++ f ++ [".gitkeep"]) = true ∨
         (initLoop root fs folders).1.isDir (root ++ f ++ [".gitkeep"]) = true) ∧
        (fs.isDir (root ++ f ++ [".gitkeep"]) = false →
         (initLoop root fs folders).1.isFile (root ++ f ++ [".gitkeep"]) = true) := by
  intro folders
  induction folders with
  | nil => intro root fs _ _ f hf; cases hf
  | cons f0 rest ih =>
    intro root fs hk hok f hf
    have hkeepne : ∀ (g : FPath), root ++ g ++ [".gitkeep"] ≠ ([] : FPath) := by
      intro g h
      have := congrArg List.length h
      simp [List.length_append] at this
    simp only [initLoop, FS.mkdirAll] at hok ⊢
    cases h1 : (mkdirSeq fs (ancestorsFrom [] (root ++ f0))).2 with
    | some p0 => rw [h1] at hok; cases hok
    | none =>
      rw [h1] at hok
      simp only at hok
      cases h2 : ((mkdirSeq fs (ancestorsFrom [] (root ++ f0))).1.touch
          (root ++ f0 ++ [".gitkeep"])).2 with
      | some p0 => rw [h2] at hok; cases hok
      | none =>
        rw [h2] at hok
        simp only at hok ⊢
        rcases List.mem_cons.mp hf with hf | hf
        · subst hf
          have hkf : ".gitkeep" ∉ f := hk f (List.mem_cons_self _ _)
          refine ⟨?_, ?_, ?_⟩
          · intro q hq
            constructor
            · apply initLoop_isDir_mono
              rw [touch_isDir]
              exact mkdirSeq_ok_isDir _ fs h1 q hq
            · cases hb : (initLoop root _ rest).1.isFile q with
              | false => rfl
              | true =>
                exfalso
                rcases initLoop_new_files rest root _ q hb with hb2 | ⟨g, _, hb2⟩
                · rcases touch_new_file _ _ _ hb2 with hb3 | hb3
                  · rw [mkdirSeq_isFile] at hb3
                    have := mkdirSeq_ok_notFile _ fs h1 q hq
                    rw [this] at hb3
                    cases hb3
                  · exact ancestor_ne_keep root f q hq hkf f hb3
                · exact ancestor_ne_keep root f q hq hkf g hb2
          · rcases touch_ok _ _ h2 with hfile | hdir
            · exact Or.inl (initLoop_isFile_mono rest root _ _ hfile)
            · apply Or.inr
              apply initLoop_isDir_mono
              rw [touch_isDir]
              exact hdir
          · intro hnd
            have hAnd : (mkdirSeq fs (ancestorsFrom [] (root ++ f))).1.isDir
                (root ++ f ++ [".gitkeep"]) = false := by
              cases hb : (mkdirSeq fs (ancestorsFrom [] (root ++ f))).1.isDir
                  (root ++ f ++ [".gitkeep"]) with
              | false => rfl
              | true =>
                exfalso
                rcases (isDir_eq_true_iff _ _).mp hb with hb2 | hb2
                · exact hkeepne f hb2
                · rcases mkdirSeq_new_dirs _ fs _ hb2 with hb3 | hb3
                  · have : fs.isDir (root ++ f ++ [".gitkeep"]) = true :=
                      (isDir_eq_true_iff _ _).mpr (Or.inr hb3)
                    rw [hnd] at this
                    cases this
                  · exact ancestor_ne_keep root f _ hb3 hkf f rfl
            rcases touch_ok _ _ h2 with hfile | hdir
            · exact initLoop_isFile_mono rest root _ _ hfile
            · rw [hAnd] at hdir; cases hdir
        · have hrest := ih root _ (fun g hg => hk g (List.mem_cons_of_mem _ hg)) hok f hf
          refine ⟨hrest.1, hrest.2.1, ?_⟩
          intro hnd
          apply hrest.2.2
          have hkf0 : ".gitkeep" ∉ f0 := hk f0 (List.mem_cons_self _ _)
          cases hb : ((mkdirSeq fs (ancestorsFrom [] (root ++ f0))).1.touch
              (root ++ f0 ++ [".gitkeep"])).1.isDir (root ++ f ++ [".gitkeep"]) with
          | false => rfl
          | true =>
            exfalso
            rw [touch_isDir] at hb
            rcases (isDir_eq_true_iff _ _).mp hb with hb2 | hb2
            · exact hkeepne f hb2
            · rcases mkdirSeq_new_dirs _ fs _ hb2 with hb3 | hb3
              · have : fs.isDir (root ++ f ++ [".gitkeep"]) = true :=
                  (isDir_eq_true_iff _ _).mpr (Or.inr hb3)
                rw [hnd] at this
                cases this
              · exact ancestor_ne_keep root f0 _ hb3 hkf0 f rfl

theorem initLoop_id :
    ∀ (folders : List FPath) (root : FPath) (fs : FS),
      (∀ f ∈ folders,
        (∀ q ∈ ancestorsFrom [] (root ++ f), fs.isDir q = true ∧ fs.isFile q = false) ∧
        (fs.isFile (root ++ f ++ [".gitkeep"]) = true ∨
         fs.isDir (root ++ f ++ [".gitkeep"]) = true)) →
      initLoop root fs folders = (fs, folders, none) := by
  intro folders
  induction folders with
  | nil => intro root fs _; rfl
  | cons f rest ih =>
    intro root fs h
    have hf := h f (List.mem_cons_self _ _)
    have hA : mkdirSeq fs (ancestorsFrom [] (root ++ f)) = (fs, none) :=
      mkdirSeq_id _ fs hf.1
    have hB : fs.touch (root ++ f ++ [".gitkeep"]) = (fs, none) :=
      touch_id fs _ hf.2
    simp only [initLoop, FS.mkdirAll, hA, hB]
    rw [ih root fs (fun g hg => h g (List.mem_cons_of_mem _ hg))]

/-! ### File contents -/

theorem fileContent_isFile (fs : FS) (q : FPath) (s : String)
    (h : fs.fileContent q = some s) : fs.isFile q = true := by
  simp only [FS.fileContent] at h
  cases hf : fs.files.find? (fun e => decide (e.1 = q)) with
  | none => rw [hf] at h; cases h
  | some e =>
    have hmem := List.mem_of_find?_eq_some hf
    have hpred := List.find?_some hf
    simp only [decide_eq_true_eq] at hpred
    simp only [FS.isFile, decide_eq_true_eq]
    exact ⟨e, hmem, hpred⟩

theorem mkdirSeq_fileContent (ps : List FPath) (fs : FS) (q : FPath) :
    (mkdirSeq fs ps).1.fileContent q = fs.fileContent q := by
  simp [FS.fileContent, mkdirSeq_files]

theorem touch_fileContent_mono (fs : FS) (p q : FPath) (s : String)
    (h : fs.fileContent q = some s) : (fs.touch p).1.fileContent q = some s := by
  simp only [FS.touch]
  by_cases h1 : (fs.isFile p || fs.isDir p) = true
  · simp [h1, h]
  · simp only [if_neg h1]
    by_cases h2 : fs.isDir p.dropLast = false
    · simp [h2, h]
    · simp only [if_neg h2]
      by_cases h3 : p ∈ fs.denied
      · simp [h3, h]
      · simp only [if_neg h3]
        have hne : p ≠ q := by
          intro he
          subst he
          have := fileContent_isFile fs p s h
          simp [this] at h1
        simp only [FS.fileContent, List.find?]
        have : (decide ((p, "").1 = q)) = false := by simp [hne]
        rw [this]
        exact h

theorem touch_fresh_content (fs : FS) (p : FPath)
    (hf : fs.isFile p = false) (hd : fs.isDir p = false)
    (hok : (fs.touch p).2 = none) :
    (fs.touch p).1.fileContent p = some "" := by
  simp only [FS.touch, hf, hd, Bool.or_self] at hok ⊢
  simp only [Bool.false_eq_true, if_false] at hok ⊢
  by_cases h2 : fs.isDir p.dropLast = false
  · simp [h2] at hok
  · simp only [if_neg h2] at hok ⊢
    by_cases h3 : p ∈ fs.denied
    · simp [h3] at hok
    · simp only [if_neg h3]
      simp [FS.fileContent, List.find?]

theorem initLoop_fileContent_mono :
    ∀ (folders : List FPath) (root : FPath) (fs : FS) (q : FPath) (s : String),
      fs.fileContent q = some s → (initLoop root fs folders).1.fileContent q = some s := by
  intro folders
  induction folders with
  | nil => intro root fs q s h; exact h
  | cons f rest ih =>
    intro root fs q s h
    simp only [initLoop, FS.mkdirAll]
    cases h1 : (mkdirSeq fs (ancestorsFrom [] (root ++ f))).2 with
    | some p => rw [mkdirSeq_fileContent]; exact h
    | none =>
      cases h2 : ((mkdirSeq fs (ancestorsFrom [] (root ++ f))).1.touch
          (root ++ f ++ [".gitkeep"])).2 with
      | some p =>
        apply touch_fileContent_mono
        rw [mkdirSeq_fileContent]
        exact h
      | none =>
        apply ih
        apply touch_fileContent_mono
        rw [mkdirSeq_fileContent]
        exact h

theorem writeFile_ok_content (fs : FS) (p : FPath) (s : String)
    (h : (fs.writeFile p s).2 = none) :
    (fs.writeFile p s).1.fileContent p = some s := by
  simp only [FS.writeFile] at h ⊢
  by_cases h1 : fs.isDir p = true
  · simp [h1] at h
  · simp only [if_neg h1] at h ⊢
    by_cases h2 : fs.isDir p.dropLast = false
    · simp [h2] at h
    · simp only [if_neg h2] at h ⊢
      by_cases h3 : fs.isFile p = true
      · simp only [if_pos h3]
        simp [FS.fileContent, List.find?]
      · simp only [if_neg h3] at h ⊢
        by_cases h4 : p ∈ fs.denied
        · simp [h4] at h
        · simp only [if_neg h4]
          simp [FS.fileContent, List.find?]

theorem keep_ne_nil (root g : FPath) : root ++ g ++ [".gitkeep"] ≠ ([] : FPath) := by
  intro h
  have := congrArg List.length h
  simp [List.length_append] at this

theorem keep_not_dir_step (root f0 g : FPath) (fs : FS)
    (hk0 : ".gitkeep" ∉ f0)
    (hnd : fs.isDir (root ++ g ++ [".gitkeep"]) = false) :
    (mkdirSeq fs (ancestorsFrom [] (root ++ f0))).1.isDir (root ++ g ++ [".gitkeep"]) = false := by
  cases hb : (mkdirSeq fs (ancestorsFrom [] (root ++ f0))).1.isDir (root ++ g ++ [".gitkeep"]) with
  | false => rfl
  | true =>
    exfalso
    rcases (isDir_eq_true_iff _ _).mp hb with hb2 | hb2
    · exact keep_ne_nil root g hb2
    · rcases mkdirSeq_new_dirs _ fs _ hb2 with hb3 | hb3
      · have : fs.isDir (root ++ g ++ [".gitkeep"]) = true :=
          (isDir_eq_true_iff _ _).mpr (Or.inr hb3)
        rw [hnd] at this; cases this
      · exact ancestor_ne_keep root f0 _ hb3 hk0 g rfl

theorem initLoop_keep_content :
    ∀ (folders : List FPath) (root : FPath) (fs : FS),
      (∀ g ∈ folders, ".gitkeep" ∉ g) →
      (initLoop root fs folders).2.2 = none →
      ∀ f ∈ folders,
        fs.isFile (root ++ f ++ [".gitkeep"]) = false →
        fs.isDir (root ++ f ++ [".gitkeep"]) = false →
        (initLoop root fs folders).1.fileContent (root ++ f ++ [".gitkeep"]) = some "" := by
  intro folders
  induction folders with
  | nil => intro root fs _ _ f hf; cases hf
  | cons f0 rest ih =>
    intro root fs hk hok f hf hNF hND
    simp only [initLoop, FS.mkdirAll] at hok ⊢
    cases h1 : (mkdirSeq fs (ancestorsFrom [] (root ++ f0))).2 with
    | some p0 => rw [h1] at hok; cases hok
    | none =>
      rw [h1] at hok
      simp only at hok
      cases h2 : ((mkdirSeq fs (ancestorsFrom [] (root ++ f0))).1.touch
          (root ++ f0 ++ [".gitkeep"])).2 with
      | some p0 => rw [h2] at hok; cases hok
      | none =>
        rw [h2] at hok
        simp only at hok ⊢
        have hkf0 : ".gitkeep" ∉ f0 := hk f0 (List.mem_cons_self _ _)
        have hAND : (mkdirSeq fs (ancestorsFrom [] (root ++ f0))).1.isDir
            (root ++ f ++ [".gitkeep"]) = false := keep_not_dir_step root f0 f fs hkf0 hND
        have hANF : (mkdirSeq fs (ancestorsFrom [] (root ++ f0))).1.isFile
            (root ++ f ++ [".gitkeep"]) = false := by
          rw [mkdirSeq_isFile]; exact hNF
        rcases List.mem_cons.mp hf with hf | hf
        · subst hf
          apply initLoop_fileContent_mono
          exact touch_fresh_content _ _ hANF hAND h2
        · cases hb : ((mkdirSeq fs (ancestorsFrom [] (root ++ f0))).1.touch
              (root ++ f0 ++ [".gitkeep"])).1.isFile (root ++ f ++ [".gitkeep"]) with
          | true =>
            rcases touch_new_file _ _ _ hb with hb2 | hb2
            · rw [hANF] at hb2; cases hb2
            · apply initLoop_fileContent_mono
              rw [← hb2] at h2 ⊢
              exact touch_fresh_content _ _ hANF hAND h2
          | false =>
            apply ih root _ (fun g hg => hk g (List.mem_cons_of_mem _ hg)) hok f hf hb
            rw [touch_isDir]
            exact hAND

theorem self_mem_ancestorsFrom :
    ∀ (p : FPath) (base : FPath), p ≠ [] → (base ++ p) ∈ ancestorsFrom base p := by
  intro p
  induction p with
  | nil => intro base h; cases h rfl
  | cons c rest ih =>
    intro base _
    by_cases hr : rest = []
    · subst hr
      simp [ancestorsFrom]
    · have h2 := ih (base ++ [c]) hr
      have he : base ++ c :: rest = (base ++ [c]) ++ rest := by simp
      show base ++ c :: rest ∈ (base ++ [c]) :: ancestorsFrom (base ++ [c]) rest
      rw [he]
      exact List.mem_cons_of_mem _ h2

/-! ### Fixtures for concrete runs -/

/-- Environment with a CUDA device available. -/
def envCuda : Env :=
  { cuda_is_available := true, mps_is_available := false,
    gpu_name := "NVIDIA GeForce RTX 3090", gpu_total_memory := 24000000000 }

/-- Filesystem whose only entry is a regular file named `data`, which makes
the very first `mkdir` of the loop fail. -/
def fsDataFile : FS :=
  { dirs := [], files := [(["data"], "not a directory")], denied := [] }

/-- Filesystem in which the first listed directory already exists and a
directory (not a file) named `.gitkeep` sits inside it. -/
def fsMarkerDir : FS :=
  { dirs := [["data"], ["data", "raw"], ["data", "raw", "images"],
             ["data", "raw", "images", ".gitkeep"]],
    files := [], denied := [] }

/-- Filesystem in which the first listed directory already exists and its
`.gitkeep` is a file with nonempty content. -/
def fsStaleMarker : FS :=
  { dirs := [["data"], ["data", "raw"], ["data", "raw", "images"]],
    files := [(["data", "raw", "images", ".gitkeep"], "stale")], denied := [] }

/-- Filesystem with just the `config` directory, so the device-config write
succeeds. -/
def fsCfg : FS := { dirs := [["config"]], files := [], denied := [] }

/-! ### Claim theorems -/

/-- Claim C1, counterexample: a run of the directory initializer that
completes without error after which a listed directory contains no marker
file.  When a directory named `.gitkeep` already occupies the marker name,
`Path.touch()` succeeds on the directory (it refreshes its timestamp via
`os.utime`) and creates no file, so the run completes with the marker name
still a directory, not a file. -/
theorem initialize_directories_marker_dir_cex :
    (initialize_directories [] fsMarkerDir).2.2 = none ∧
    (initialize_directories [] fsMarkerDir).1.isDir ["data", "raw", "images"] = true ∧
    (initialize_directories [] fsMarkerDir).1.isFile
      ["data", "raw", "images", ".gitkeep"] = false := by
  decide

/-- Claim C1, amended: after every run of the directory initializer that
completes without error, every path in `PROJECT_STRUCTURE` exists as a
directory with all parent directories in place, and it contains a marker
entry named `.gitkeep`: a file, or the pre-existing directory of that name
that `touch` left in place; when no directory occupied the marker name
beforehand the marker is a file. -/
theorem initialize_directories_creates_tree (cwd : FPath) (fs fs1 : FS) (att : List FPath)
    (h : initialize_directories cwd fs = (fs1, att, none)) :
    ∀ f ∈ PROJECT_STRUCTURE,
      fs1.isDir (cwd ++ f) = true ∧
      (∀ q ∈ ancestorsFrom [] (cwd ++ f), fs1.isDir q = true) ∧
      (fs1.isFile (cwd ++ f ++ [".gitkeep"]) = true ∨
        fs1.isDir (cwd ++ f ++ [".gitkeep"]) = true) ∧
      (fs.isDir (cwd ++ f ++ [".gitkeep"]) = false →
        fs1.isFile (cwd ++ f ++ [".gitkeep"]) = true) := by
  intro f hf
  have e : initLoop cwd fs PROJECT_STRUCTURE = (fs1, att, none) := h
  have hpost := initLoop_ok_post PROJECT_STRUCTURE cwd fs (by decide) (by rw [e]) f hf
  rw [e] at hpost
  have hfne : f ≠ [] := by
    have hne : ∀ g ∈ PROJECT_STRUCTURE, g ≠ ([] : FPath) := by decide
    exact hne f hf
  have hmem : cwd ++ f ∈ ancestorsFrom [] (cwd ++ f) := by
    have h2 := self_mem_ancestorsFrom (cwd ++ f) []
      (by simp [List.append_eq_nil, hfne])
    simpa using h2
  exact ⟨(hpost.1 (cwd ++ f) hmem).1,
    fun q hq => (hpost.1 q hq).1, hpost.2.1, hpost.2.2⟩

/-- Claim C1, witness: the amended theorem applied to a run from the empty
working directory, at the folder `data/raw/images` and its parent
`data/raw`. -/
theorem initialize_directories_creates_tree_witness :
    (initialize_directories [] emptyFS).1.isDir ([] ++ ["data", "raw", "images"]) = true ∧
    (initialize_directories [] emptyFS).1.isDir ["data", "raw"] = true ∧
    ((initialize_directories [] emptyFS).1.isFile
        ([] ++ ["data", "raw", "images"] ++ [".gitkeep"]) = true ∨
      (initialize_directories [] emptyFS).1.isDir
        ([] ++ ["data", "raw", "images"] ++ [".gitkeep"]) = true) ∧
    (initialize_directories [] emptyFS).1.isFile
      ([] ++ ["data", "raw", "images"] ++ [".gitkeep"]) = true :=
  have T := initialize_directories_creates_tree [] emptyFS
    (initialize_directories [] emptyFS).1 (initialize_directories [] emptyFS).2.1
    (by decide) ["data", "raw", "images"] (by decide)
  ⟨T.1, T.2.1 ["data", "raw"] (by decide), T.2.2.1, T.2.2.2 (by decide)⟩

/-- Claim C2: the accelerator prober selects the class in the fixed priority
order CUDA, then MPS, then CPU, and on a run whose config write succeeds it
persists the selected single-token string to `config/device_config.txt` and
returns that same token. -/
theorem check_hardware_acceleration_priority_and_persist (env : Env) (cwd : FPath) (fs : FS)
    (hok : (check_hardware_acceleration env cwd fs).2.2 = none) :
    (env.cuda_is_available = true → (check_hardware_acceleration env cwd fs).1 = "cuda") ∧
    (env.cuda_is_available = false → env.mps_is_available = true →
      (check_hardware_acceleration env cwd fs).1 = "mps") ∧
    (env.cuda_is_available = false → env.mps_is_available = false →
      (check_hardware_acceleration env cwd fs).1 = "cpu") ∧
    (check_hardware_acceleration env cwd fs).2.1.fileContent (cwd ++ device_config_path) =
      some (check_hardware_acceleration env cwd fs).1 := by
  refine ⟨?_, ?_, ?_, ?_⟩
  · intro hc
    show selected_device env = "cuda"
    simp [selected_device, hc]
  · intro hc hm
    show selected_device env = "mps"
    simp [selected_device, hc, hm]
  · intro hc hm
    show selected_device env = "cpu"
    simp [selected_device, hc, hm]
  · exact writeFile_ok_content fs (cwd ++ device_config_path) (selected_device env) hok

/-- Claim C2, witness: a CUDA environment over a filesystem that has the
`config` directory. -/
theorem check_hardware_acceleration_priority_and_persist_witness :
    (envCuda.cuda_is_available = true →
      (check_hardware_acceleration envCuda [] fsCfg).1 = "cuda") ∧
    (envCuda.cuda_is_available = false → envCuda.mps_is_available = true →
      (check_hardware_acceleration envCuda [] fsCfg).1 = "mps") ∧
    (envCuda.cuda_is_available = false → envCuda.mps_is_available = false →
      (check_hardware_acceleration envCuda [] fsCfg).1 = "cpu") ∧
    (check_hardware_acceleration envCuda [] fsCfg).2.1.fileContent
      ([] ++ device_config_path) = some (check_hardware_acceleration envCuda [] fsCfg).1 :=
  check_hardware_acceleration_priority_and_persist envCuda [] fsCfg (by decide)

/-- Claim C3: when a directory-creation (or marker-creation) step fails, the
failing folder is reported and the process exits with status 1 having
attempted exactly the folders up to and including the failing one, none
after it; and the process exits with status 0 only when every folder of the
list succeeded. -/
theorem initialize_directories_abort_on_first_failure (env : Env) (cwd : FPath) (fs : FS) :
    (∀ fs1 att p, initialize_directories cwd fs = (fs1, att, some p) →
      (∃ pre post, PROJECT_STRUCTURE = pre ++ p :: post ∧ att = pre ++ [p]) ∧
      (script_main env cwd fs).2 = 1) ∧
    ((script_main env cwd fs).2 = 0 →
      (initialize_directories cwd fs).2.2 = none ∧
      (initialize_directories cwd fs).2.1 = PROJECT_STRUCTURE) := by
  constructor
  · intro fs1 att p h
    have ht := (initLoop_trace PROJECT_STRUCTURE cwd fs).2 p (by
      show (initialize_directories cwd fs).2.2 = some p
      rw [h])
    constructor
    · rcases ht with ⟨pre, post, hps, hatt⟩
      refine ⟨pre, post, hps, ?_⟩
      have hatt2 : (initialize_directories cwd fs).2.1 = att := by rw [h]
      rw [← hatt2]
      exact hatt
    · simp [script_main, h]
  · intro h0
    cases hI : (initialize_directories cwd fs).2.2 with
    | some p => simp [script_main, hI] at h0
    | none => exact ⟨rfl, (initLoop_trace PROJECT_STRUCTURE cwd fs).1 hI⟩

/-- Claim C3, witness: a filesystem with a regular file named `data` makes
the first folder fail; exactly that folder is attempted and the exit status
is 1. -/
theorem initialize_directories_abort_witness :
    (∃ pre post, PROJECT_STRUCTURE = pre ++ ["data", "raw", "images"] :: post ∧
      ([["data", "raw", "images"]] : List FPath) = pre ++ [["data", "raw", "images"]]) ∧
    (script_main envNone [] fsDataFile).2 = 1 :=
  (initialize_directories_abort_on_first_failure envNone [] fsDataFile).1
    fsDataFile [["data", "raw", "images"]] ["data", "raw", "images"] (by decide)

/-- Claim C4: the initializer is idempotent; a second run on the state left
by an error-free first run reports no error, attempts every folder, and
leaves the filesystem state exactly unchanged (timestamps are not part of
the state). -/
theorem initialize_directories_idempotent (cwd : FPath) (fs fs1 : FS) (att : List FPath)
    (h : initialize_directories cwd fs = (fs1, att, none)) :
    initialize_directories cwd fs1 = (fs1, PROJECT_STRUCTURE, none) := by
  have e : initLoop cwd fs PROJECT_STRUCTURE = (fs1, att, none) := h
  have hpost := initLoop_ok_post PROJECT_STRUCTURE cwd fs (by decide) (by rw [e])
  rw [e] at hpost
  show initLoop cwd fs1 PROJECT_STRUCTURE = (fs1, PROJECT_STRUCTURE, none)
  apply initLoop_id
  intro f hf
  exact ⟨(hpost f hf).1, (hpost f hf).2.1⟩

/-- Claim C4, witness: the second run after initializing the empty working
directory. -/
theorem initialize_directories_idempotent_witness :
    initialize_directories [] (initialize_directories [] emptyFS).1 =
      ((initialize_directories [] emptyFS).1, PROJECT_STRUCTURE, none) :=
  initialize_directories_idempotent [] emptyFS (initialize_directories [] emptyFS).1
    (initialize_directories [] emptyFS).2.1 (by decide)

/-- Claim C5: after every run of the accelerator prober that completes (its
config write does not raise), the configuration file holds exactly one of
the three valid tokens and nothing else. -/
theorem device_config_single_valid_token (env : Env) (cwd : FPath) (fs : FS)
    (hok : (check_hardware_acceleration env cwd fs).2.2 = none) :
    ∃ t, (check_hardware_acceleration env cwd fs).2.1.fileContent
        (cwd ++ device_config_path) = some t ∧
      (t = "cuda" ∨ t = "mps" ∨ t = "cpu") := by
  refine ⟨selected_device env,
    writeFile_ok_content fs (cwd ++ device_config_path) (selected_device env) hok, ?_⟩
  by_cases hc : env.cuda_is_available = true
  · simp [selected_device, hc]
  · by_cases hm : env.mps_is_available = true
    · simp [selected_device, hc, hm]
    · simp [selected_device, hc, hm]

/-- Claim C5, witness: a CPU-only environment with the `config` directory
present. -/
theorem device_config_single_valid_token_witness :
    ∃ t, (check_hardware_acceleration envNone [] fsCfg).2.1.fileContent
        ([] ++ device_config_path) = some t ∧
      (t = "cuda" ∨ t = "mps" ∨ t = "cpu") :=
  device_config_single_valid_token envNone [] fsCfg (by decide)

/-- Claim C6, counterexample: the prober is not failure-free for every
environment state.  On a filesystem without a `config` directory the
unguarded `open("config/device_config.txt", "w")` raises (FileNotFoundError),
terminating the process; the model records the offending path. -/
theorem check_hardware_acceleration_raises_cex :
    (check_hardware_acceleration envNone [] emptyFS).2.2 =
      some ["config", "device_config.txt"] := by
  decide

/-- Claim C6, amended: detection itself has no failure mode — for every
combination of capability flags the prober selects a class, treating absence
of acceleration hardware as the CPU fallback and not as an error — and the
run completes normally whenever the configuration directory exists and the
configuration path is writable (in particular whenever the initializer ran
first); only the unguarded config write can raise. -/
theorem check_hardware_acceleration_total_in_flags (env : Env) (cwd : FPath) (fs : FS)
    (hdir : fs.isDir (cwd ++ ["config"]) = true)
    (hnotdir : fs.isDir (cwd ++ device_config_path) = false)
    (hfree : fs.isFile (cwd ++ device_config_path) = true ∨
      (cwd ++ device_config_path) ∉ fs.denied) :
    (check_hardware_acceleration env cwd fs).2.2 = none := by
  show (fs.writeFile (cwd ++ device_config_path) (selected_device env)).2 = none
  have hparent : (cwd ++ device_config_path).dropLast = cwd ++ ["config"] := by
    have he : cwd ++ device_config_path = (cwd ++ ["config"]) ++ ["device_config.txt"] := by
      simp [device_config_path]
    rw [he, List.dropLast_concat]
  simp only [FS.writeFile, hnotdir, Bool.false_eq_true, if_false, hparent, hdir]
  simp only [Bool.true_eq_false, if_false]
  rcases hfree with hfile | hden
  · simp [hfile]
  · by_cases hfile : fs.isFile (cwd ++ device_config_path) = true
    · simp [hfile]
    · simp [hfile, hden]

/-- Claim C6, witness: the amended theorem at a CPU-only environment over a
filesystem with the `config` directory. -/
theorem check_hardware_acceleration_total_in_flags_witness :
    (check_hardware_acceleration envNone [] fsCfg).2.2 = none :=
  check_hardware_acceleration_total_in_flags envNone [] fsCfg (by decide) (by decide)
    (by decide)

/-- Claim C7, counterexample: the marker file is not empty for every prior
filesystem state.  `Path.touch()` only refreshes the timestamp of an
existing file, so a `.gitkeep` that already held content keeps it: the run
completes without error and the marker still holds `"stale"`. -/
theorem gitkeep_keeps_existing_content :
    (initialize_directories [] fsStaleMarker).2.2 = none ∧
    (initialize_directories [] fsStaleMarker).1.fileContent
      ["data", "raw", "images", ".gitkeep"] = some "stale" ∧
    (initialize_directories [] fsStaleMarker).1.fileContent
      ["data", "raw", "images", ".gitkeep"] ≠ some "" := by
  decide

/-- Claim C7, amended: after an error-free run, the marker placed in a
listed directory is an empty file whenever no file or directory of that name
existed beforehand; a pre-existing marker file keeps its content (only its
timestamp is refreshed) and a pre-existing directory is left in place. -/
theorem gitkeep_empty_when_fresh (cwd : FPath) (fs fs1 : FS) (att : List FPath)
    (h : initialize_directories cwd fs = (fs1, att, none)) :
    ∀ f ∈ PROJECT_STRUCTURE,
      fs.isFile (cwd ++ f ++ [".gitkeep"]) = false →
      fs.isDir (cwd ++ f ++ [".gitkeep"]) = false →
      fs1.fileContent (cwd ++ f ++ [".gitkeep"]) = some "" := by
  intro f hf hNF hND
  have e : initLoop cwd fs PROJECT_STRUCTURE = (fs1, att, none) := h
  have hres := initLoop_keep_content PROJECT_STRUCTURE cwd fs (by decide)
    (by rw [e]) f hf hNF hND
  rw [e] at hres
  exact hres

/-- Claim C7, witness: in the empty working directory the `logs` marker is
created empty. -/
theorem gitkeep_empty_when_fresh_witness :
    (initialize_directories [] emptyFS).1.fileContent
      ([] ++ ["logs"] ++ [".gitkeep"]) = some "" :=
  gitkeep_empty_when_fresh [] emptyFS (initialize_directories [] emptyFS).1
    (initialize_directories [] emptyFS).2.1 (by decide) ["logs"] (by decide)
    (by decide) (by decide)

/-- Claim C8: running the entry point in an empty working directory with no
accelerator exits with status 0 having created all thirteen listed
subdirectories (the list has exactly thirteen entries), each holding a
marker file, and the configuration file containing the processor-only token
`cpu`. -/
theorem main_empty_dir_cpu_scenario :
    PROJECT_STRUCTURE.length = 13 ∧
    (script_main envNone [] emptyFS).2 = 0 ∧
    PROJECT_STRUCTURE.all (fun f =>
      (script_main envNone [] emptyFS).1.isDir f &&
      (script_main envNone [] emptyFS).1.isFile (f ++ [".gitkeep"])) = true ∧
    (script_main envNone [] emptyFS).1.fileContent device_config_path = some "cpu" := by
  decide

/-- Claim C9: on every run of the accelerator prober that completes, the
token persisted to the configuration file is exactly the token returned to
the caller. -/
theorem check_hardware_acceleration_persisted_eq_returned (env : Env) (cwd : FPath) (fs : FS)
    (hok : (check_hardware_acceleration env cwd fs).2.2 = none) :
    (check_hardware_acceleration env cwd fs).2.1.fileContent (cwd ++ device_config_path) =
      some (check_hardware_acceleration env cwd fs).1 :=
  writeFile_ok_content fs (cwd ++ device_config_path) (selected_device env) hok

/-- Claim C9, witness: the persisted and returned tokens agree on a concrete
completing run. -/
theorem check_hardware_acceleration_persisted_eq_returned_witness :
    (check_hardware_acceleration envCuda [] fsCfg).2.1.fileContent
      ([] ++ device_config_path) = some (check_hardware_acceleration envCuda [] fsCfg).1 :=
  check_hardware_acceleration_persisted_eq_returned envCuda [] fsCfg (by decide)

/-- Claim C10: the selected class token depends only on the two capability
flags: two runs whose CUDA flag and MPS flag agree return the same token, no
matter how the device metadata, the working directory, or the filesystem
differ; and when both runs complete, the contents they persist agree as
well. -/
theorem selected_device_depends_only_on_flags (e1 e2 : Env) (cwd1 cwd2 : FPath)
    (fsa fsb : FS)
    (hcuda : e1.cuda_is_available = e2.cuda_is_available)
    (hmps : e1.mps_is_available = e2.mps_is_available) :
    (check_hardware_acceleration e1 cwd1 fsa).1 =
      (check_hardware_acceleration e2 cwd2 fsb).1 ∧
    ((check_hardware_acceleration e1 cwd1 fsa).2.2 = none →
      (check_hardware_acceleration e2 cwd2 fsb).2.2 = none →
      (check_hardware_acceleration e1 cwd1 fsa).2.1.fileContent (cwd1 ++ device_config_path) =
        (check_hardware_acceleration e2 cwd2 fsb).2.1.fileContent
          (cwd2 ++ device_config_path)) := by
  have hsel : selected_device e1 = selected_device e2 := by
    simp [selected_device, hcuda, hmps]
  constructor
  · exact hsel
  · intro h1 h2
    have c1 := writeFile_ok_content fsa (cwd1 ++ device_config_path) (selected_device e1) h1
    have c2 := writeFile_ok_content fsb (cwd2 ++ device_config_path) (selected_device e2) h2
    show (fsa.writeFile (cwd1 ++ device_config_path) (selected_device e1)).1.fileContent
        (cwd1 ++ device_config_path) =
      (fsb.writeFile (cwd2 ++ device_config_path) (selected_device e2)).1.fileContent
        (cwd2 ++ device_config_path)
    rw [c1, c2, hsel]

/-- Claim C10, witness: two environments with equal flags but different
metadata, working directories, and filesystems select and persist the same
token. -/
theorem selected_device_depends_only_on_flags_witness :
    (check_hardware_acceleration envCuda [] fsCfg).1 =
      (check_hardware_acceleration
        { cuda_is_available := true, mps_is_available := false,
          gpu_name := "other", gpu_total_memory := 1 } ["home"]
        { dirs := [["home"], ["home", "config"]], files := [], denied := [] }).1 ∧
    ((check_hardware_acceleration envCuda [] fsCfg).2.2 = none →
      (check_hardware_acceleration
        { cuda_is_available := true, mps_is_available := false,
          gpu_name := "other", gpu_total_memory := 1 } ["home"]
        { dirs := [["home"], ["home", "config"]], files := [], denied := [] }).2.2 = none →
      (check_hardware_acceleration envCuda [] fsCfg).2.1.fileContent
          ([] ++ device_config_path) =
        (check_hardware_acceleration
          { cuda_is_available := true, mps_is_available := false,
            gpu_name := "other", gpu_total_memory := 1 } ["home"]
          { dirs := [["home"], ["home", "config"]], files := [], denied := [] }).2.1.fileContent
          (["home"] ++ device_config_path)) :=
  selected_device_depends_only_on_flags envCuda
    { cuda_is_available := true, mps_is_available := false,
      gpu_name := "other", gpu_total_memory := 1 } [] ["home"] fsCfg
    { dirs := [["home"], ["home", "config"]], files := [], denied := [] }
    (by decide) (by decide)
